import Mathlib

/-
Shallow embedding of the AIND-Recognizer sources:
  my_model_selectors.py   (ModelSelector, SelectorConstant, SelectorBIC,
                           SelectorDIC, SelectorCV)
  my_recognizer.py        (recognize)
and, where a claim cites it, my_model_selectors_org_working.py.

Modelling conventions.
A fitted GaussianHMM is deterministic here (fixed random_state=14), so a
model is identified by the state count it was fitted with; whether
GaussianHMM(...).fit succeeds for a given state count is the environment's
`fitOK`, and `score` gives the log-likelihood of the model fitted with a
given state count on a given word's data (None when model.score raises).
Log-likelihoods are rationals: only ordering and field arithmetic of the
scores matter to the selection logic, never which transcendental value they
are, and `logN` abstracts the value np.log(self.X.shape[0]).
self.X, self.lengths come from all_word_Xlengths[this_word], so scoring a
model on the selector's own data is `score n this_word`.
-/

structure SelectorEnv where
  /-- keys of `self.words` = all_word_sequences, in dict iteration order -/
  words : List String
  /-- `self.this_word` -/
  this_word : String
  /-- `len(self.sequences)` -/
  seqLen : ℕ
  /-- `self.X.shape[1]`, the feature dimensionality -/
  D : ℕ
  /-- `self.X.shape[0]`, the total observation count -/
  N : ℕ
  /-- the value `np.log(self.X.shape[0])` -/
  logN : ℚ
  /-- `self.n_constant` -/
  n_constant : ℕ
  /-- `self.min_n_components` -/
  min_n_components : ℕ
  /-- `self.max_n_components` -/
  max_n_components : ℕ
  /-- whether `GaussianHMM(n_components=n, ...).fit(self.X, self.lengths)` succeeds -/
  fitOK : ℕ → Bool
  /-- `score n w`: the model fitted with n states scored on hwords[w];
      None when `model.score` raises -/
  score : ℕ → String → Option ℚ
  /-- score of the model fitted with n states on the data of one KFold test
      split (fold index); None when that `model.score` raises -/
  foldScore : ℕ → ℕ → Option ℚ

/-- `ModelSelector.base_model` (my_model_selectors.py lines 34-47): fit a
GaussianHMM with `num_states` states on the selector's own data; the bare
except turns any fit failure into the return value None. -/
def base_model (e : SelectorEnv) (n : ℕ) : Option ℕ :=
  if e.fitOK n then some n else none

/-- The candidate state counts `range(self.min_n_components,
self.max_n_components + 1)` scanned by the BIC and DIC selectors. -/
def candidates (e : SelectorEnv) : List ℕ :=
  List.range' e.min_n_components (e.max_n_components + 1 - e.min_n_components)

/-- One iteration of the `SelectorBIC.select` loop body up to the comparison
(my_model_selectors.py lines 80-83): fit, score, and compute
`bic = -2*logL + p*log(N)` with `p = n*(n-1) + (n-1) + 2*D*n`.  None when
the fit returned None (so `model.score` raises AttributeError) or scoring
raised: either exception is caught by the `except: continue`. -/
def bicEval (e : SelectorEnv) (n : ℕ) : Option ℚ :=
  match base_model e n with
  | none => none
  | some m =>
    match e.score m e.this_word with
    | none => none
    | some logL =>
      let p : ℤ := (n : ℤ) * ((n : ℤ) - 1) + ((n : ℤ) - 1) + 2 * (e.D : ℤ) * (n : ℤ)
      some (-2 * logL + (p : ℚ) * e.logN)

/-- The running `lbicModel` update of `SelectorBIC.select` (line 84):
`lbicModel = (model, bic) if bic < lbicModel[1] else lbicModel`, the initial
`(None, inf)` represented by `none` (any real bic beats inf).  A candidate
whose evaluation raised leaves the accumulator unchanged (`except: continue`). -/
def bicStep (e : SelectorEnv) (acc : Option (ℕ × ℚ)) (n : ℕ) : Option (ℕ × ℚ) :=
  match bicEval e n with
  | none => acc
  | some b =>
    match acc with
    | none => some (n, b)
    | some mb => if b < mb.2 then some (n, b) else some mb

/-- `SelectorBIC.select` (my_model_selectors.py lines 69-88): scan the
candidate range keeping the lowest-BIC model, return `lbicModel[0]`. -/
def SelectorBIC_select (e : SelectorEnv) : Option ℕ :=
  ((candidates e).foldl (bicStep e) none).map Prod.fst

/-- One iteration of the `SelectorDIC.select` loop body up to the comparison
(my_model_selectors.py lines 106-110): fit, score, sum
`model.score(self.hwords[word])` over every word of `self.words` (the target
word included - the generator draws from the whole dict), then
`dic = logL - sumAllLogL/(len(self.words)-1)`.  None when the fit returned
None, any score raised, or `len(self.words) - 1 == 0` (float division by
zero raises ZeroDivisionError); each is caught by `except: continue`. -/
def dicEval (e : SelectorEnv) (n : ℕ) : Option ℚ :=
  match base_model e n with
  | none => none
  | some m =>
    match e.score m e.this_word with
    | none => none
    | some logL =>
      match e.words.mapM (fun w => e.score m w) with
      | none => none
      | some ls =>
        if e.words.length = 1 then none
        else some (logL - ls.sum / ((e.words.length : ℚ) - 1))

/-- The running `ldicModel` update of `SelectorDIC.select` (line 111):
`ldicModel = (model, dic) if dic > ldicModel[1] else ldicModel`, the initial
`(None, -inf)` represented by `none` (any real dic beats -inf). -/
def dicStep (e : SelectorEnv) (acc : Option (ℕ × ℚ)) (n : ℕ) : Option (ℕ × ℚ) :=
  match dicEval e n with
  | none => acc
  | some d =>
    match acc with
    | none => some (n, d)
    | some md => if md.2 < d then some (n, d) else some md

/-- `SelectorDIC.select` (my_model_selectors.py lines 100-115): scan the
candidate range keeping the highest-DIC model, return `ldicModel[0]`. -/
def SelectorDIC_select (e : SelectorEnv) : Option ℕ :=
  ((candidates e).foldl (dicStep e) none).map Prod.fst

/-- `SelectorConstant.select` (my_model_selectors.py lines 55-61): fit the
fixed state count `self.n_constant` on the full item data. -/
def SelectorConstant_select (e : SelectorEnv) : Option ℕ :=
  base_model e e.n_constant

/-- The Python exceptions the embedded control flow distinguishes. -/
inductive PyError where
  | attributeError
  | nameError
  | valueError
  | scoreError
deriving DecidableEq

/-- `KFold()` keeps scikit-learn's default fold count n_splits = 5. -/
def kfoldNSplits : ℕ := 5

/-- The attribute lookup `self.n_components` inside `SelectorCV.select`
(my_model_selectors.py line 127 and line 137): `ModelSelector.__init__` sets
`min_n_components`, `max_n_components`, `n_constant`, `random_state`,
`verbose`, `words`, `hwords`, `sequences`, `X`, `lengths`, `this_word` -
never `n_components` - and no other code does, so the lookup raises
AttributeError on every selector object. -/
def selector_n_components (_e : SelectorEnv) : Except PyError (List ℕ) :=
  Except.error PyError.attributeError

/-- The inner fold loop of `SelectorCV.select` (lines 129-132): KFold.split
raises ValueError when the item has fewer sequences than n_splits; otherwise
each test split is scored with `model.score` (raising AttributeError when
`base_model` returned None, or a scoring error). -/
def cvFoldScores (e : SelectorEnv) (model : Option ℕ) : Except PyError (List ℚ) :=
  if e.seqLen < kfoldNSplits then Except.error PyError.valueError
  else
    match model with
    | none => Except.error PyError.attributeError
    | some m =>
      match (List.range kfoldNSplits).mapM (fun i => e.foldScore m i) with
      | none => Except.error PyError.scoreError
      | some fs => Except.ok fs

/-- One iteration of the `SelectorCV.select` candidate loop body (lines
128-133).  After the fold scores are collected into the local list `folds`,
line 133 evaluates `np.mean(fold_scores)` - but `fold_scores` is an unbound
name in this file (the list is called `folds`), so the iteration always ends
in NameError before anything is appended to `means`. -/
def cvLoopBody (e : SelectorEnv) (_means : List ℚ) (nComp : ℕ) : Except PyError (List ℚ) := do
  let model := base_model e nComp
  let _folds ← cvFoldScores e model
  Except.error PyError.nameError

/-- The try block of `SelectorCV.select` (lines 126-133).  The loop header
`for nComp in self.n_components` evaluates `self.n_components` first, which
raises AttributeError before any iteration runs (so the distinction between
keeping or dropping earlier `means.append`s on a mid-loop exception never
arises; no append ever executes anyway, see `cvLoopBody`). -/
def cvTryBlock (e : SelectorEnv) : Except PyError (List ℚ) := do
  let ncs ← selector_n_components e
  ncs.foldlM (cvLoopBody e) []

/-- The `means` list as it stands after the try/except of `SelectorCV.select`
(lines 123-135): the bare `except: pass` swallows the exception, leaving the
appends that happened - none. -/
def cvMeans (e : SelectorEnv) : List ℚ :=
  match cvTryBlock e with
  | Except.error _ => []
  | Except.ok ms => ms

/-- `SelectorCV.select` (my_model_selectors.py lines 121-138):
`states = self.n_components[np.argmax(means)] if means else self.n_constant`
then `return self.base_model(states)`.  When `means` is empty the
`self.n_components` lookup is never evaluated and the constant fallback is
fitted; when `means` is non-empty the lookup raises AttributeError, this
time outside any try - an uncaught exception, hence the Except result type. -/
def SelectorCV_select (e : SelectorEnv) : Except PyError (Option ℕ) :=
  match cvMeans e with
  | [] => Except.ok (base_model e e.n_constant)
  | _ :: _ => Except.error PyError.attributeError

/-- The `SelectorBIC.select` loop of my_model_selectors_org_working.py
(lines 80-88), where the try/except sits OUTSIDE the `for` loop: the first
candidate whose fit or score raises aborts the remaining candidates and the
best accumulator so far is returned.  (That file's line 85 drops a closing
parenthesis - the module does not even import; the loop is modelled as its
text reads with the parenthesis closed.) -/
def bicFoldOrg (e : SelectorEnv) : Option (ℕ × ℚ) → List ℕ → Option (ℕ × ℚ)
  | acc, [] => acc
  | acc, n :: ns =>
    match bicEval e n with
    | none => acc
    | some b =>
      match acc with
      | none => bicFoldOrg e (some (n, b)) ns
      | some mb => bicFoldOrg e (if b < mb.2 then some (n, b) else some mb) ns

/-- `SelectorBIC.select` of my_model_selectors_org_working.py (lines 71-89). -/
def SelectorBIC_org_select (e : SelectorEnv) : Option ℕ :=
  (bicFoldOrg e none (candidates e)).map Prod.fst

/-- The DIC score as the claim words it: L_self minus the mean of the fitted
model's log-likelihood over every OTHER item, the target excluded from the
average.  Written from the claim/spec text, for comparison with `dicEval`
(which follows the source and sums over ALL items). -/
def dicClaimEval (e : SelectorEnv) (n : ℕ) : Option ℚ :=
  match base_model e n with
  | none => none
  | some m =>
    match e.score m e.this_word with
    | none => none
    | some logL =>
      match (e.words.filter (fun w => w != e.this_word)).mapM (fun w => e.score m w) with
      | none => none
      | some ls =>
        if ls.length = 0 then none
        else some (logL - ls.sum / (ls.length : ℚ))

/-
Embedding of my_recognizer.py.  `models` is a Python dict, so its keys are
distinct and `models.items()` yields each key once, in insertion order; it
is represented as the association list of that iteration order, and the
per-sequence `prob` dict - keyed by the same words in the same order - as
the association list built by the loop.  A test sequence is identified by
its id in `test_set`; `score m x` is `model.score(X, lengths)` for that
sequence's data, None when scoring raises.  A recorded log-likelihood is a
`WithBot ℚ`: `⊥` stands for the float("-inf") recorded on failure and used
to initialise `bestOption`.
-/

/-- The inner-loop score recording of `recognize` (my_recognizer.py lines
32-35): `logL = model.score(X, lengths)` with `except: logL = float("-inf")`. -/
def recScore (score : ℕ → ℕ → Option ℚ) (m : ℕ) (x : ℕ) : WithBot ℚ :=
  match score m x with
  | none => (⊥ : WithBot ℚ)
  | some q => (q : WithBot ℚ)

/-- The per-sequence loop of `recognize` (my_recognizer.py lines 27-38):
starting from `bestOption = ("", float("-inf"))` and an empty `prob`, each
model's score is recorded and
`bestOption = (word, logL) if logL > bestOption[1] else bestOption`. -/
def recognizeRow (models : List (String × ℕ)) (score : ℕ → ℕ → Option ℚ) (x : ℕ) :
    List (String × WithBot ℚ) × String × WithBot ℚ :=
  models.foldl
    (fun acc wm =>
      let logL := recScore score wm.2 x
      (acc.1 ++ [(wm.1, logL)], if acc.2.2 < logL then (wm.1, logL) else acc.2))
    ([], ("", (⊥ : WithBot ℚ)))

/-- `recognize` (my_recognizer.py lines 26-43): for each test sequence append
its score dict to `probabilities` and its best word to `guesses`, returning
the pair of lists. -/
def recognize (models : List (String × ℕ)) (score : ℕ → ℕ → Option ℚ) (seqs : List ℕ) :
    List (List (String × WithBot ℚ)) × List String :=
  seqs.foldl
    (fun acc x =>
      let row := recognizeRow models score x
      (acc.1 ++ [row.1], acc.2 ++ [row.2.1]))
    ([], [])

/-- Specification-side description of one sequence's recorded score list:
one entry per model, in the mapping's key order, each holding that model's
recorded log-likelihood (`⊥` on scoring failure). -/
def scoredRow (models : List (String × ℕ)) (score : ℕ → ℕ → Option ℚ) (x : ℕ) :
    List (String × WithBot ℚ) :=
  models.map (fun wm => (wm.1, recScore score wm.2 x))

/-- The `bestOption` fold in isolation: keep the incumbent unless the new
score is strictly greater. -/
def bestFold (init : String × WithBot ℚ) (l : List (String × WithBot ℚ)) :
    String × WithBot ℚ :=
  l.foldl (fun b p => if b.2 < p.2 then p else b) init

/- Concrete environments used by the witnesses and counterexamples below. -/

/-- A two-candidate item (range [2,3]) where every fit succeeds and the model
with n states scores n on the item's own data; logN is 0 so BIC = -2*logL. -/
def envBIC : SelectorEnv :=
  { words := ["A"], this_word := "A", seqLen := 6, D := 1, N := 10, logN := 0,
    n_constant := 3, min_n_components := 2, max_n_components := 3,
    fitOK := fun _ => true,
    score := fun n _ => some (n : ℚ),
    foldScore := fun _ _ => none }

/-- Two words A (the target) and B, candidates 2 and 3: the 2-state model
scores 0 on A and -10 on B, the 3-state model scores 5 on A and -9 on B. -/
def envDIC : SelectorEnv :=
  { words := ["A", "B"], this_word := "A", seqLen := 6, D := 1, N := 10, logN := 0,
    n_constant := 3, min_n_components := 2, max_n_components := 3,
    fitOK := fun _ => true,
    score := fun n w =>
      if n = 2 then (if w = "A" then some 0 else some (-10))
      else if n = 3 then (if w = "A" then some 5 else some (-9))
      else none,
    foldScore := fun _ _ => none }

/-- Candidates 2,3,4: candidate 3 fails to score, candidates 2 and 4 succeed
with BIC 0 and -2 (logN = 0, so BIC = -2*logL). -/
def envSkip : SelectorEnv :=
  { words := ["A"], this_word := "A", seqLen := 6, D := 1, N := 10, logN := 0,
    n_constant := 3, min_n_components := 2, max_n_components := 4,
    fitOK := fun _ => true,
    score := fun n w =>
      if w = "A" then (if n = 2 then some 0 else if n = 4 then some 1 else none)
      else none,
    foldScore := fun _ _ => none }

/-- An item with plenty of sequences (10 > 5 folds) and well-behaved fold
scores, so nothing about the data itself stops cross-validation. -/
def envCV : SelectorEnv :=
  { words := ["A"], this_word := "A", seqLen := 10, D := 1, N := 10, logN := 0,
    n_constant := 3, min_n_components := 2, max_n_components := 4,
    fitOK := fun _ => true,
    score := fun n _ => some (n : ℚ),
    foldScore := fun n i => some ((n : ℚ) + (i : ℚ)) }

/-- An item with only 2 sequences, fewer than the 5 folds of KFold(). -/
def envFewSeq : SelectorEnv :=
  { words := ["A"], this_word := "A", seqLen := 2, D := 1, N := 4, logN := 0,
    n_constant := 3, min_n_components := 2, max_n_components := 4,
    fitOK := fun _ => true,
    score := fun n _ => some (n : ℚ),
    foldScore := fun _ _ => none }

/-- Every candidate in the range [2,3] fails to fit, but the constant state
count 5 (outside the range) fits and scores. -/
def envFallback : SelectorEnv :=
  { words := ["A"], this_word := "A", seqLen := 6, D := 1, N := 10, logN := 0,
    n_constant := 5, min_n_components := 2, max_n_components := 3,
    fitOK := fun n => n == 5,
    score := fun n _ => if n = 5 then some 0 else none,
    foldScore := fun _ _ => none }

/-- Nothing fits and nothing scores. -/
def envAllFail : SelectorEnv :=
  { words := ["A"], this_word := "A", seqLen := 6, D := 1, N := 10, logN := 0,
    n_constant := 3, min_n_components := 2, max_n_components := 3,
    fitOK := fun _ => false,
    score := fun _ _ => none,
    foldScore := fun _ _ => none }

/-- A dataset whose vocabulary is the single word A; fits and scores succeed,
only the DIC denominator len(words)-1 = 0 is degenerate. -/
def envOneWord : SelectorEnv :=
  { words := ["A"], this_word := "A", seqLen := 6, D := 1, N := 10, logN := 0,
    n_constant := 3, min_n_components := 2, max_n_components := 3,
    fitOK := fun _ => true,
    score := fun n _ => some (n : ℚ),
    foldScore := fun _ _ => none }

/-- The trained-model mapping of the spec's recognizer example, model ids
0,1,2 for words A,B,C. -/
def recModels : List (String × ℕ) := [("A", 0), ("B", 1), ("C", 2)]

/-- Scores of the spec's recognizer example: A scores -50, B scores -30 and
C scores -75 on every test sequence. -/
def recScores : ℕ → ℕ → Option ℚ := fun m _ =>
  if m = 0 then some (-50) else if m = 1 then some (-30)
  else if m = 2 then some (-75) else none

/- Helper lemmas about the accumulator folds. -/

theorem bicStep_of_none (e : SelectorEnv) (acc : Option (ℕ × ℚ)) {n : ℕ}
    (h : bicEval e n = none) : bicStep e acc n = acc := by
  simp [bicStep, h]

theorem bicStep_isSome (e : SelectorEnv) (acc : Option (ℕ × ℚ)) {n : ℕ}
    (h : (bicEval e n).isSome) : (bicStep e acc n).isSome := by
  cases hb : bicEval e n with
  | none => rw [hb] at h; cases h
  | some b =>
    cases acc with
    | none => simp [bicStep, hb]
    | some mb =>
      simp only [bicStep, hb]
      split <;> simp

theorem bicStep_isSome_of_acc (e : SelectorEnv) {acc : Option (ℕ × ℚ)} (n : ℕ)
    (h : acc.isSome) : (bicStep e acc n).isSome := by
  cases hb : bicEval e n with
  | none => simpa [bicStep, hb] using h
  | some b =>
    cases acc with
    | none => cases h
    | some mb =>
      simp only [bicStep, hb]
      split <;> simp

theorem bicFold_isSome_of_acc (e : SelectorEnv) (cs : List ℕ) :
    ∀ acc : Option (ℕ × ℚ), acc.isSome → (cs.foldl (bicStep e) acc).isSome := by
  induction cs with
  | nil => intro acc h; exact h
  | cons c cs ih =>
    intro acc h
    exact ih _ (bicStep_isSome_of_acc e c h)

theorem bicFold_isSome (e : SelectorEnv) (cs : List ℕ) :
    ∀ acc : Option (ℕ × ℚ), (∃ n ∈ cs, (bicEval e n).isSome) →
      (cs.foldl (bicStep e) acc).isSome := by
  induction cs with
  | nil => intro acc h; rcases h with ⟨n, hn, _⟩; cases hn
  | cons c cs ih =>
    intro acc h
    rcases h with ⟨n, hn, hsome⟩
    rcases List.mem_cons.mp hn with rfl | hn2
    · exact bicFold_isSome_of_acc e cs _ (bicStep_isSome e acc hsome)
    · exact ih _ ⟨n, hn2, hsome⟩

theorem bicFold_min (e : SelectorEnv) (cs : List ℕ) :
    ∀ (acc : Option (ℕ × ℚ)) (m : ℕ) (b : ℚ),
      cs.foldl (bicStep e) acc = some (m, b) →
      (acc = some (m, b) ∨ (m ∈ cs ∧ bicEval e m = some b)) ∧
      (∀ k ∈ cs, ∀ bk, bicEval e k = some bk → b ≤ bk) ∧
      (∀ mb0 : ℕ × ℚ, acc = some mb0 → b ≤ mb0.2) := by
  induction cs with
  | nil =>
    intro acc m b h
    simp only [List.foldl_nil] at h
    refine ⟨Or.inl h, by simp, ?_⟩
    intro mb0 h0
    rw [h] at h0
    cases h0
    rfl
  | cons c cs ih =>
    intro acc m b h
    rw [List.foldl_cons] at h
    obtain ⟨ihA, ihB, ihC⟩ := ih (bicStep e acc c) m b h
    cases hc : bicEval e c with
    | none =>
      rw [bicStep_of_none e acc hc] at ihA ihC
      refine ⟨?_, ?_, ihC⟩
      · rcases ihA with h1 | ⟨h1, h2⟩
        · exact Or.inl h1
        · exact Or.inr ⟨List.mem_cons_of_mem c h1, h2⟩
      · intro k hk bk hbk
        rcases List.mem_cons.mp hk with rfl | hk2
        · rw [hc] at hbk; cases hbk
        · exact ihB k hk2 bk hbk
    | some bc =>
      have hF1 : ∀ mb' : ℕ × ℚ, bicStep e acc c = some mb' → mb'.2 ≤ bc := by
        intro mb' h'
        cases acc with
        | none =>
          simp only [bicStep, hc] at h'
          cases h'
          exact le_refl _
        | some mb =>
          simp only [bicStep, hc] at h'
          split at h'
          · cases h'; exact le_refl _
          · cases h'
            next hlt => exact le_of_not_lt hlt
      have hF2 : ∀ mb' : ℕ × ℚ, bicStep e acc c = some mb' →
          (acc = some mb' ∨ mb' = (c, bc)) := by
        intro mb' h'
        cases acc with
        | none =>
          simp only [bicStep, hc] at h'
          cases h'
          exact Or.inr rfl
        | some mb =>
          simp only [bicStep, hc] at h'
          split at h'
          · cases h'; exact Or.inr rfl
          · cases h'; exact Or.inl rfl
      have hF3 : ∀ mb0 : ℕ × ℚ, acc = some mb0 →
          ∀ mb' : ℕ × ℚ, bicStep e acc c = some mb' → mb'.2 ≤ mb0.2 := by
        intro mb0 h0 mb' h'
        subst h0
        simp only [bicStep, hc] at h'
        split at h'
        · cases h'
          next hlt => exact le_of_lt hlt
        · cases h'; exact le_refl _
      have hsome : ∃ mb' : ℕ × ℚ, bicStep e acc c = some mb' := by
        have := bicStep_isSome e acc (n := c) (by rw [hc]; rfl)
        cases hx : bicStep e acc c with
        | none => rw [hx] at this; cases this
        | some mb' => exact ⟨mb', rfl⟩
      obtain ⟨mb', hmb'⟩ := hsome
      refine ⟨?_, ?_, ?_⟩
      · rcases ihA with h1 | ⟨h1, h2⟩
        · rcases hF2 _ h1 with h3 | h3
          · exact Or.inl h3
          · cases h3
            exact Or.inr ⟨List.mem_cons_self c cs, hc⟩
        · exact Or.inr ⟨List.mem_cons_of_mem c h1, h2⟩
      · intro k hk bk hbk
        rcases List.mem_cons.mp hk with rfl | hk2
        · rw [hc] at hbk
          cases hbk
          exact le_trans (ihC mb' hmb') (hF1 mb' hmb')
        · exact ihB k hk2 bk hbk
      · intro mb0 h0
        exact le_trans (ihC mb' hmb') (hF3 mb0 h0 mb' hmb')

theorem dicStep_of_none (e : SelectorEnv) (acc : Option (ℕ × ℚ)) {n : ℕ}
    (h : dicEval e n = none) : dicStep e acc n = acc := by
  simp [dicStep, h]

theorem dicStep_isSome (e : SelectorEnv) (acc : Option (ℕ × ℚ)) {n : ℕ}
    (h : (dicEval e n).isSome) : (dicStep e acc n).isSome := by
  cases hd : dicEval e n with
  | none => rw [hd] at h; cases h
  | some d =>
    cases acc with
    | none => simp [dicStep, hd]
    | some md =>
      simp only [dicStep, hd]
      split <;> simp

theorem dicStep_isSome_of_acc (e : SelectorEnv) {acc : Option (ℕ × ℚ)} (n : ℕ)
    (h : acc.isSome) : (dicStep e acc n).isSome := by
  cases hd : dicEval e n with
  | none => simpa [dicStep, hd] using h
  | some d =>
    cases acc with
    | none => cases h
    | some md =>
      simp only [dicStep, hd]
      split <;> simp

theorem dicFold_isSome_of_acc (e : SelectorEnv) (cs : List ℕ) :
    ∀ acc : Option (ℕ × ℚ), acc.isSome → (cs.foldl (dicStep e) acc).isSome := by
  induction cs with
  | nil => intro acc h; exact h
  | cons c cs ih =>
    intro acc h
    exact ih _ (dicStep_isSome_of_acc e c h)

theorem dicFold_isSome (e : SelectorEnv) (cs : List ℕ) :
    ∀ acc : Option (ℕ × ℚ), (∃ n ∈ cs, (dicEval e n).isSome) →
      (cs.foldl (dicStep e) acc).isSome := by
  induction cs with
  | nil => intro acc h; rcases h with ⟨n, hn, _⟩; cases hn
  | cons c cs ih =>
    intro acc h
    rcases h with ⟨n, hn, hsome⟩
    rcases List.mem_cons.mp hn with rfl | hn2
    · exact dicFold_isSome_of_acc e cs _ (dicStep_isSome e acc hsome)
    · exact ih _ ⟨n, hn2, hsome⟩

theorem dicFold_max (e : SelectorEnv) (cs : List ℕ) :
    ∀ (acc : Option (ℕ × ℚ)) (m : ℕ) (d : ℚ),
      cs.foldl (dicStep e) acc = some (m, d) →
      (acc = some (m, d) ∨ (m ∈ cs ∧ dicEval e m = some d)) ∧
      (∀ k ∈ cs, ∀ dk, dicEval e k = some dk → dk ≤ d) ∧
      (∀ md0 : ℕ × ℚ, acc = some md0 → md0.2 ≤ d) := by
  induction cs with
  | nil =>
    intro acc m d h
    simp only [List.foldl_nil] at h
    refine ⟨Or.inl h, by simp, ?_⟩
    intro md0 h0
    rw [h] at h0
    cases h0
    rfl
  | cons c cs ih =>
    intro acc m d h
    rw [List.foldl_cons] at h
    obtain ⟨ihA, ihB, ihC⟩ := ih (dicStep e acc c) m d h
    cases hc : dicEval e c with
    | none =>
      rw [dicStep_of_none e acc hc] at ihA ihC
      refine ⟨?_, ?_, ihC⟩
      · rcases ihA with h1 | ⟨h1, h2⟩
        · exact Or.inl h1
        · exact Or.inr ⟨List.mem_cons_of_mem c h1, h2⟩
      · intro k hk dk hdk
        rcases List.mem_cons.mp hk with rfl | hk2
        · rw [hc] at hdk; cases hdk
        · exact ihB k hk2 dk hdk
    | some dc =>
      have hF1 : ∀ md' : ℕ × ℚ, dicStep e acc c = some md' → dc ≤ md'.2 := by
        intro md' h'
        cases acc with
        | none =>
          simp only [dicStep, hc] at h'
          cases h'
          exact le_refl _
        | some md =>
          simp only [dicStep, hc] at h'
          split at h'
          · cases h'; exact le_refl _
          · cases h'
            next hlt => exact le_of_not_lt hlt
      have hF2 : ∀ md' : ℕ × ℚ, dicStep e acc c = some md' →
          (acc = some md' ∨ md' = (c, dc)) := by
        intro md' h'
        cases acc with
        | none =>
          simp only [dicStep, hc] at h'
          cases h'
          exact Or.inr rfl
        | some md =>
          simp only [dicStep, hc] at h'
          split at h'
          · cases h'; exact Or.inr rfl
          · cases h'; exact Or.inl rfl
      have hF3 : ∀ md0 : ℕ × ℚ, acc = some md0 →
          ∀ md' : ℕ × ℚ, dicStep e acc c = some md' → md0.2 ≤ md'.2 := by
        intro md0 h0 md' h'
        subst h0
        simp only [dicStep, hc] at h'
        split at h'
        · cases h'
          next hlt => exact le_of_lt hlt
        · cases h'; exact le_refl _
      have hsome : ∃ md' : ℕ × ℚ, dicStep e acc c = some md' := by
        have := dicStep_isSome e acc (n := c) (by rw [hc]; rfl)
        cases hx : dicStep e acc c with
        | none => rw [hx] at this; cases this
        | some md' => exact ⟨md', rfl⟩
      obtain ⟨md', hmd'⟩ := hsome
      refine ⟨?_, ?_, ?_⟩
      · rcases ihA with h1 | ⟨h1, h2⟩
        · rcases hF2 _ h1 with h3 | h3
          · exact Or.inl h3
          · cases h3
            exact Or.inr ⟨List.mem_cons_self c cs, hc⟩
        · exact Or.inr ⟨List.mem_cons_of_mem c h1, h2⟩
      · intro k hk dk hdk
        rcases List.mem_cons.mp hk with rfl | hk2
        · rw [hc] at hdk
          cases hdk
          exact le_trans (hF1 md' hmd') (ihC md' hmd')
        · exact ihB k hk2 dk hdk
      · intro md0 h0
        exact le_trans (hF3 md0 h0 md' hmd') (ihC md' hmd')

theorem bicFold_of_all_none (e : SelectorEnv) (cs : List ℕ) :
    ∀ acc : Option (ℕ × ℚ), (∀ n ∈ cs, bicEval e n = none) →
      cs.foldl (bicStep e) acc = acc := by
  induction cs with
  | nil => intro acc _; rfl
  | cons c cs ih =>
    intro acc h
    rw [List.foldl_cons, bicStep_of_none e acc (h c (List.mem_cons_self c cs))]
    exact ih acc (fun n hn => h n (List.mem_cons_of_mem c hn))

theorem dicFold_of_all_none (e : SelectorEnv) (cs : List ℕ) :
    ∀ acc : Option (ℕ × ℚ), (∀ n ∈ cs, dicEval e n = none) →
      cs.foldl (dicStep e) acc = acc := by
  induction cs with
  | nil => intro acc _; rfl
  | cons c cs ih =>
    intro acc h
    rw [List.foldl_cons, dicStep_of_none e acc (h c (List.mem_cons_self c cs))]
    exact ih acc (fun n hn => h n (List.mem_cons_of_mem c hn))

theorem bicFold_filter (e : SelectorEnv) (cs : List ℕ) :
    ∀ acc : Option (ℕ × ℚ),
      cs.foldl (bicStep e) acc =
        (cs.filter (fun n => (bicEval e n).isSome)).foldl (bicStep e) acc := by
  induction cs with
  | nil => intro acc; rfl
  | cons c cs ih =>
    intro acc
    cases hc : bicEval e c with
    | none =>
      rw [List.foldl_cons, bicStep_of_none e acc hc]
      rw [List.filter_cons_of_neg (by simp [hc])]
      exact ih acc
    | some b =>
      rw [List.foldl_cons]
      rw [List.filter_cons_of_pos (by simp [hc]), List.foldl_cons]
      exact ih _

theorem dicFold_filter (e : SelectorEnv) (cs : List ℕ) :
    ∀ acc : Option (ℕ × ℚ),
      cs.foldl (dicStep e) acc =
        (cs.filter (fun n => (dicEval e n).isSome)).foldl (dicStep e) acc := by
  induction cs with
  | nil => intro acc; rfl
  | cons c cs ih =>
    intro acc
    cases hc : dicEval e c with
    | none =>
      rw [List.foldl_cons, dicStep_of_none e acc hc]
      rw [List.filter_cons_of_neg (by simp [hc])]
      exact ih acc
    | some d =>
      rw [List.foldl_cons]
      rw [List.filter_cons_of_pos (by simp [hc]), List.foldl_cons]
      exact ih _

theorem bicFoldOrg_takeWhile (e : SelectorEnv) (cs : List ℕ) :
    ∀ acc : Option (ℕ × ℚ),
      bicFoldOrg e acc cs =
        (cs.takeWhile (fun n => (bicEval e n).isSome)).foldl (bicStep e) acc := by
  induction cs with
  | nil => intro acc; rfl
  | cons c cs ih =>
    intro acc
    cases hc : bicEval e c with
    | none =>
      rw [List.takeWhile_cons_of_neg (by simp [hc])]
      cases acc <;> simp [bicFoldOrg, hc]
    | some b =>
      rw [List.takeWhile_cons_of_pos (by simp [hc]), List.foldl_cons]
      cases acc with
      | none =>
        simp only [bicFoldOrg, hc]
        rw [ih]
        congr 1
        simp [bicStep, hc]
      | some mb =>
        simp only [bicFoldOrg, hc]
        rw [ih]
        congr 1
        simp [bicStep, hc]

/- Helper lemmas about the recognizer. -/

theorem recognize_components (models : List (String × ℕ)) (score : ℕ → ℕ → Option ℚ)
    (seqs : List ℕ) :
    ∀ acc : List (List (String × WithBot ℚ)) × List String,
      seqs.foldl
        (fun acc x =>
          let row := recognizeRow models score x
          (acc.1 ++ [row.1], acc.2 ++ [row.2.1])) acc =
      (acc.1 ++ seqs.map (fun x => (recognizeRow models score x).1),
       acc.2 ++ seqs.map (fun x => (recognizeRow models score x).2.1)) := by
  induction seqs with
  | nil => intro acc; simp
  | cons x xs ih =>
    intro acc
    rw [List.foldl_cons, ih]
    simp

theorem recognize_fst (models : List (String × ℕ)) (score : ℕ → ℕ → Option ℚ)
    (seqs : List ℕ) :
    (recognize models score seqs).1 = seqs.map (fun x => (recognizeRow models score x).1) := by
  unfold recognize
  rw [recognize_components]
  simp

theorem recognize_snd (models : List (String × ℕ)) (score : ℕ → ℕ → Option ℚ)
    (seqs : List ℕ) :
    (recognize models score seqs).2 =
      seqs.map (fun x => (recognizeRow models score x).2.1) := by
  unfold recognize
  rw [recognize_components]
  simp

theorem recognizeRow_components (models : List (String × ℕ)) (score : ℕ → ℕ → Option ℚ)
    (x : ℕ) :
    ∀ acc : List (String × WithBot ℚ) × String × WithBot ℚ,
      models.foldl
        (fun acc wm =>
          let logL := recScore score wm.2 x
          (acc.1 ++ [(wm.1, logL)], if acc.2.2 < logL then (wm.1, logL) else acc.2)) acc =
      (acc.1 ++ scoredRow models score x, bestFold acc.2 (scoredRow models score x)) := by
  induction models with
  | nil => intro acc; simp [scoredRow, bestFold]
  | cons wm ms ih =>
    intro acc
    rw [List.foldl_cons, ih]
    simp [scoredRow, bestFold]

theorem recognizeRow_fst (models : List (String × ℕ)) (score : ℕ → ℕ → Option ℚ) (x : ℕ) :
    (recognizeRow models score x).1 = scoredRow models score x := by
  unfold recognizeRow
  rw [recognizeRow_components]
  simp

theorem recognizeRow_snd (models : List (String × ℕ)) (score : ℕ → ℕ → Option ℚ) (x : ℕ) :
    (recognizeRow models score x).2 =
      bestFold ("", (⊥ : WithBot ℚ)) (scoredRow models score x) := by
  unfold recognizeRow
  rw [recognizeRow_components]

/-- Characterisation of the `bestOption` fold: either nothing beat the initial
value (every score is ≤ it and the initial pair is kept), or the result is the
first list entry that strictly exceeds the initial value and every entry
before it, and no entry anywhere exceeds it. -/
theorem bestFold_spec (l : List (String × WithBot ℚ)) :
    ∀ init : String × WithBot ℚ,
      (bestFold init l = init ∧ ∀ p ∈ l, p.2 ≤ init.2) ∨
      (∃ j, ∃ hj : j < l.length,
        bestFold init l = l.get ⟨j, hj⟩ ∧
        init.2 < (l.get ⟨j, hj⟩).2 ∧
        (∀ p ∈ l, p.2 ≤ (l.get ⟨j, hj⟩).2) ∧
        (∀ k, ∀ hk : k < j, (l.get ⟨k, Nat.lt_trans hk hj⟩).2 < (l.get ⟨j, hj⟩).2)) := by
  induction l with
  | nil =>
    intro init
    exact Or.inl ⟨rfl, by simp⟩
  | cons p ps ih =>
    intro init
    by_cases hp : init.2 < p.2
    · have hstep : bestFold init (p :: ps) = bestFold p ps := by
        simp [bestFold, List.foldl_cons, hp]
      rcases ih p with ⟨heq, hall⟩ | ⟨j, hj, heq, hlt, hall, hfirst⟩
      · refine Or.inr ⟨0, Nat.succ_pos ps.length, ?_, ?_, ?_, ?_⟩
        · rw [hstep, heq]; rfl
        · exact hp
        · intro q hq
          rcases List.mem_cons.mp hq with rfl | hq2
          · exact le_refl _
          · exact hall q hq2
        · intro k hk
          exact absurd hk (Nat.not_lt_zero k)
      · refine Or.inr ⟨j + 1, Nat.succ_lt_succ hj, ?_, ?_, ?_, ?_⟩
        · rw [hstep, heq]; rfl
        · exact lt_trans hp hlt
        · intro q hq
          rcases List.mem_cons.mp hq with rfl | hq2
          · exact le_of_lt hlt
          · exact hall q hq2
        · intro k hk
          cases k with
          | zero => exact hlt
          | succ k2 => exact hfirst k2 (Nat.lt_of_succ_lt_succ hk)
    · have hstep : bestFold init (p :: ps) = bestFold init ps := by
        simp [bestFold, List.foldl_cons, hp]
      rcases ih init with ⟨heq, hall⟩ | ⟨j, hj, heq, hlt, hall, hfirst⟩
      · refine Or.inl ⟨by rw [hstep, heq], ?_⟩
        intro q hq
        rcases List.mem_cons.mp hq with rfl | hq2
        · exact le_of_not_lt hp
        · exact hall q hq2
      · refine Or.inr ⟨j + 1, Nat.succ_lt_succ hj, ?_, ?_, ?_, ?_⟩
        · rw [hstep, heq]; rfl
        · exact hlt
        · intro q hq
          rcases List.mem_cons.mp hq with rfl | hq2
          · exact le_of_lt (lt_of_le_of_lt (le_of_not_lt hp) hlt)
          · exact hall q hq2
        · intro k hk
          cases k with
          | zero => exact lt_of_le_of_lt (le_of_not_lt hp) hlt
          | succ k2 => exact hfirst k2 (Nat.lt_of_succ_lt_succ hk)

theorem bestFold_of_all_bot (w : String) (l : List (String × WithBot ℚ))
    (h : ∀ p ∈ l, p.2 = (⊥ : WithBot ℚ)) :
    bestFold (w, (⊥ : WithBot ℚ)) l = (w, (⊥ : WithBot ℚ)) := by
  induction l with
  | nil => rfl
  | cons p ps ih =>
    have hp : p.2 = (⊥ : WithBot ℚ) := h p (List.mem_cons_self p ps)
    have hstep : bestFold (w, (⊥ : WithBot ℚ)) (p :: ps) =
        bestFold (w, (⊥ : WithBot ℚ)) ps := by
      simp [bestFold, List.foldl_cons, hp]
    rw [hstep]
    exact ih (fun q hq => h q (List.mem_cons_of_mem p hq))

/- The claims. -/

/-- C1: for every item, SelectorBIC.select returns, among the candidate state
counts n of the closed range [min_n_components, max_n_components] that fit
and score successfully, a model whose BIC score -2*L + p*ln(N), with
p = n*(n-1) + (n-1) + 2*D*n, is less than or equal to the BIC score of every
other successfully scored candidate in the range. -/
theorem bic_select_minimal (e : SelectorEnv) (n : ℕ) (hn : n ∈ candidates e)
    (b : ℚ) (hb : bicEval e n = some b) :
    ∃ m bm, SelectorBIC_select e = some m ∧ m ∈ candidates e ∧
      bicEval e m = some bm ∧
      ∀ k ∈ candidates e, ∀ bk, bicEval e k = some bk → bm ≤ bk := by
  have hsome : ((candidates e).foldl (bicStep e) none).isSome :=
    bicFold_isSome e (candidates e) none ⟨n, hn, by rw [hb]; rfl⟩
  cases hx : (candidates e).foldl (bicStep e) none with
  | none => rw [hx] at hsome; cases hsome
  | some mb =>
    obtain ⟨hA, hB, _⟩ := bicFold_min e (candidates e) none mb.1 mb.2 (by rw [hx])
    rcases hA with h1 | ⟨hmem, heval⟩
    · cases h1
    · refine ⟨mb.1, mb.2, ?_, hmem, heval, hB⟩
      unfold SelectorBIC_select
      rw [hx]
      rfl

/-- Witness for bic_select_minimal: at envBIC candidate 2 scores BIC -4. -/
theorem bic_select_minimal_witness :
    (2 ∈ candidates envBIC) ∧ bicEval envBIC 2 = some (-4) ∧
    (∃ m bm, SelectorBIC_select envBIC = some m ∧ m ∈ candidates envBIC ∧
      bicEval envBIC m = some bm ∧
      ∀ k ∈ candidates envBIC, ∀ bk, bicEval envBIC k = some bk → bm ≤ bk) :=
  ⟨by decide, by norm_num +decide [bicEval, base_model, envBIC],
    bic_select_minimal envBIC 2 (by decide) (-4)
      (by norm_num +decide [bicEval, base_model, envBIC])⟩

/-- C2 (code bug): SelectorDIC sums the fitted model's log-likelihood over
ALL words of the dataset - the target word included - before dividing by
(number of words - 1), contradicting both the claim and the formula of its
own class docstring, DIC = log(P(X(i))) - 1/(M-1) * SUM over all words but i.
At envDIC both candidates 2 and 3 score successfully; the code computes
dic(2) = 10 and dic(3) = 9 and returns the 2-state model, although under the
claim's target-excluded formula dic(2) = 10 and dic(3) = 14, so the returned
model is not DIC-maximal as the claim requires. -/
theorem dic_select_includes_target :
    SelectorDIC_select envDIC = some 2 ∧
    dicEval envDIC 2 = some 10 ∧ dicEval envDIC 3 = some 9 ∧
    dicClaimEval envDIC 2 = some 10 ∧ dicClaimEval envDIC 3 = some 14 ∧
    (2 ∈ candidates envDIC) ∧ (3 ∈ candidates envDIC) ∧
    ¬ ((14 : ℚ) ≤ 10) := by
  refine ⟨?_, ?_, ?_, ?_, ?_, by decide, by decide, by norm_num⟩ <;>
    norm_num +decide [SelectorDIC_select, candidates, dicStep, dicEval, dicClaimEval,
      base_model, envDIC, List.mapM.loop, List.range']

/-- C3 counterexample: in the org file's SelectorBIC the try/except wraps the
whole loop, so candidate 3's scoring failure terminates the search: candidate
4 fits and scores successfully with the strictly lowest BIC (-2), yet the
2-state model is returned; the main file's SelectorBIC, whose try/except is
inside the loop, returns the 4-state model from the same data. -/
theorem org_bic_stops_at_failure :
    bicEval envSkip 2 = some 0 ∧ bicEval envSkip 3 = none ∧
    bicEval envSkip 4 = some (-2) ∧ (4 ∈ candidates envSkip) ∧
    SelectorBIC_org_select envSkip = some 2 ∧
    SelectorBIC_select envSkip = some 4 ∧
    ¬ ((0 : ℚ) ≤ (-2 : ℚ)) := by
  refine ⟨?_, ?_, ?_, by decide, ?_, ?_, by norm_num⟩ <;>
    norm_num +decide [SelectorBIC_org_select, SelectorBIC_select, bicFoldOrg,
      bicStep, bicEval, base_model, candidates, envSkip, List.range']

/-- C3 amended: in my_model_selectors.py the SelectorBIC and SelectorDIC
try/except sits inside the loop, so a failing candidate is skipped and the
scan equals the scan over exactly the successfully evaluated candidates; in
my_model_selectors_org_working.py's SelectorBIC the try/except wraps the
loop, so the scan stops at the first failing candidate (only the prefix of
successful candidates is evaluated, later successful candidates are
abandoned); and my_model_selectors.py's SelectorCV never evaluates any range
candidate at all - its loop dies at once and the constant fallback is
fitted. -/
theorem failure_handling_per_strategy (e : SelectorEnv) (cs : List ℕ)
    (acc : Option (ℕ × ℚ)) :
    cs.foldl (bicStep e) acc =
      (cs.filter (fun n => (bicEval e n).isSome)).foldl (bicStep e) acc ∧
    cs.foldl (dicStep e) acc =
      (cs.filter (fun n => (dicEval e n).isSome)).foldl (dicStep e) acc ∧
    bicFoldOrg e acc cs =
      (cs.takeWhile (fun n => (bicEval e n).isSome)).foldl (bicStep e) acc ∧
    SelectorCV_select e = Except.ok (base_model e e.n_constant) :=
  ⟨bicFold_filter e cs acc, dicFold_filter e cs acc,
    bicFoldOrg_takeWhile e cs acc, rfl⟩

/-- C4 counterexample: with the single model A whose scoring fails, A's
recorded score (negative infinity, the only one) is trivially maximal among
the recorded scores, yet the guess for the sequence is the empty string -
not A, hence not the first-encountered item name whose score is maximal. -/
theorem recognize_guess_not_a_name :
    (recognize [("A", 0)] (fun _ _ => (none : Option ℚ)) [0]).2 = [""] ∧
    scoredRow [("A", 0)] (fun _ _ => (none : Option ℚ)) 0 =
      [("A", (⊥ : WithBot ℚ))] ∧
    ("" : String) ≠ "A" := by decide

/-- C4 amended: for every test sequence, recognize records one score per
model, in the mapping's key order (negative infinity for a model whose
scoring fails), the output lists are index-aligned with the test-sequence
order, and - provided at least one model's recorded score exceeds negative
infinity - the guess is the first-encountered item name whose recorded score
is maximal, and that winning score exceeds negative infinity, so a model
recorded as negative infinity is never chosen over a model with a finite
score.  (When every recorded score is negative infinity the guess is the
empty string instead, see the counterexample and claim C9.) -/
theorem recognize_spec (models : List (String × ℕ)) (score : ℕ → ℕ → Option ℚ)
    (seqs : List ℕ) :
    (recognize models score seqs).1 = seqs.map (scoredRow models score) ∧
    (recognize models score seqs).2 =
      seqs.map (fun x => (recognizeRow models score x).2.1) ∧
    ∀ x, (∃ p ∈ scoredRow models score x, (⊥ : WithBot ℚ) < p.2) →
      ∃ j, ∃ hj : j < (scoredRow models score x).length,
        (recognizeRow models score x).2.1 =
          ((scoredRow models score x).get ⟨j, hj⟩).1 ∧
        (⊥ : WithBot ℚ) < ((scoredRow models score x).get ⟨j, hj⟩).2 ∧
        (∀ p ∈ scoredRow models score x,
          p.2 ≤ ((scoredRow models score x).get ⟨j, hj⟩).2) ∧
        (∀ k, ∀ hk : k < j,
          ((scoredRow models score x).get ⟨k, Nat.lt_trans hk hj⟩).2 <
            ((scoredRow models score x).get ⟨j, hj⟩).2) := by
  refine ⟨?_, recognize_snd models score seqs, ?_⟩
  · rw [recognize_fst]
    simp only [recognizeRow_fst]
  · intro x hx
    have hrow := recognizeRow_snd models score x
    rcases bestFold_spec (scoredRow models score x) ("", (⊥ : WithBot ℚ)) with
      ⟨heq, hall⟩ | ⟨j, hj, heq, hlt, hall, hfirst⟩
    · obtain ⟨p, hp, hplt⟩ := hx
      exact absurd (lt_of_lt_of_le hplt (hall p hp)) (lt_irrefl _)
    · refine ⟨j, hj, ?_, hlt, hall, hfirst⟩
      rw [hrow, heq]

/-- Witness for recognize_spec at the spec's example scores (A -50, B -30,
C -75): some recorded score exceeds negative infinity, and the conclusion
names a maximal first-encountered winner. -/
theorem recognize_spec_witness :
    (∃ p ∈ scoredRow recModels recScores 0, (⊥ : WithBot ℚ) < p.2) ∧
    (∃ j, ∃ hj : j < (scoredRow recModels recScores 0).length,
      (recognizeRow recModels recScores 0).2.1 =
        ((scoredRow recModels recScores 0).get ⟨j, hj⟩).1 ∧
      (⊥ : WithBot ℚ) < ((scoredRow recModels recScores 0).get ⟨j, hj⟩).2 ∧
      (∀ p ∈ scoredRow recModels recScores 0,
        p.2 ≤ ((scoredRow recModels recScores 0).get ⟨j, hj⟩).2) ∧
      (∀ k, ∀ hk : k < j,
        ((scoredRow recModels recScores 0).get ⟨k, Nat.lt_trans hk hj⟩).2 <
          ((scoredRow recModels recScores 0).get ⟨j, hj⟩).2)) :=
  ⟨by decide, (recognize_spec recModels recScores [0]).2.2 0 (by decide)⟩

/-- C5 (code bug): even for an item with 10 sequences (plenty for 5 folds),
every fit succeeding and every fold score available, SelectorCV's candidate
loop still dies immediately on the missing n_components attribute: no
cross-validation ever happens and the constant state count 3 is what gets
fitted, regardless of the candidates' fold scores. -/
theorem cv_never_cross_validates :
    cvTryBlock envCV = Except.error PyError.attributeError ∧
    cvMeans envCV = [] ∧
    SelectorCV_select envCV = Except.ok (some 3) :=
  ⟨rfl, rfl, rfl⟩

/-- C6: for an item with fewer sequences than the KFold fold count,
SelectorCV.select returns (without raising) exactly SelectorConstant.select's
result: the constant state count fitted on the full item data. -/
theorem cv_few_sequences_eq_constant (e : SelectorEnv)
    (_h : e.seqLen < kfoldNSplits) :
    SelectorCV_select e = Except.ok (SelectorConstant_select e) := rfl

/-- Witness for cv_few_sequences_eq_constant: envFewSeq has 2 < 5 sequences. -/
theorem cv_few_sequences_eq_constant_witness :
    envFewSeq.seqLen < kfoldNSplits ∧
    SelectorCV_select envFewSeq = Except.ok (SelectorConstant_select envFewSeq) :=
  ⟨by decide, cv_few_sequences_eq_constant envFewSeq (by decide)⟩

/-- C7 counterexample: at envFallback every candidate in the search range
fails to fit, yet SelectorCV.select returns a model - the constant fallback
fitted with 5 states - not the explicit absence. -/
theorem cv_all_fail_returns_model :
    (∀ n ∈ candidates envFallback, base_model envFallback n = none) ∧
    SelectorCV_select envFallback = Except.ok (some 5) ∧
    (some (5 : ℕ)) ≠ none :=
  ⟨by decide, rfl, by decide⟩

/-- C7 amended: select never raises for any strategy; for SelectorBIC and
SelectorDIC, when every candidate in the range fails to fit or score the
result is the explicit absence None; SelectorCV and SelectorConstant instead
fit the constant state count n_constant on the full item data, so an
all-candidate failure yields the absence only when that constant fit also
fails. -/
theorem select_total_or_absent (e : SelectorEnv) :
    ((∀ n ∈ candidates e, bicEval e n = none) → SelectorBIC_select e = none) ∧
    ((∀ n ∈ candidates e, dicEval e n = none) → SelectorDIC_select e = none) ∧
    SelectorCV_select e = Except.ok (base_model e e.n_constant) ∧
    SelectorConstant_select e = base_model e e.n_constant := by
  refine ⟨?_, ?_, rfl, rfl⟩
  · intro h
    unfold SelectorBIC_select
    rw [bicFold_of_all_none e (candidates e) none h]
    rfl
  · intro h
    unfold SelectorDIC_select
    rw [dicFold_of_all_none e (candidates e) none h]
    rfl

/-- Witness for select_total_or_absent at envAllFail, where nothing fits. -/
theorem select_total_or_absent_witness :
    (∀ n ∈ candidates envAllFail, bicEval envAllFail n = none) ∧
    (∀ n ∈ candidates envAllFail, dicEval envAllFail n = none) ∧
    SelectorBIC_select envAllFail = none ∧
    SelectorDIC_select envAllFail = none :=
  ⟨by decide, by decide,
    (select_total_or_absent envAllFail).1 (by decide),
    (select_total_or_absent envAllFail).2.1 (by decide)⟩

/-- C8: for every input and configuration, SelectorCV's try block dies
immediately on the missing n_components attribute (the one file also uses
the unbound name fold_scores inside the loop body, see cvLoopBody), the
swallowed failure leaves the list of mean scores empty, and the fallback
fits the constant state count - exactly SelectorConstant.select's result. -/
theorem cv_select_eq_constant (e : SelectorEnv) :
    cvTryBlock e = Except.error PyError.attributeError ∧
    cvMeans e = [] ∧
    SelectorCV_select e = Except.ok (SelectorConstant_select e) :=
  ⟨rfl, rfl, rfl⟩

/-- C9: for a test sequence on which every model's scoring fails (also
vacuously when the mapping is empty), recognize records negative infinity
for every model and the guess appended for that sequence is the empty
string, which - as long as the empty string is not itself a key of the
mapping, and a Python word key is never empty - is not the name of any
model. -/
theorem recognize_all_fail_empty_guess (models : List (String × ℕ))
    (score : ℕ → ℕ → Option ℚ) (seqs : List ℕ) :
    ((recognize models score seqs).2 =
      seqs.map (fun x => (recognizeRow models score x).2.1)) ∧
    ∀ x, (∀ wm ∈ models, score wm.2 x = none) →
      (recognizeRow models score x).1 =
        models.map (fun wm => (wm.1, (⊥ : WithBot ℚ))) ∧
      (recognizeRow models score x).2.1 = "" ∧
      (("" : String) ∉ models.map Prod.fst →
        (recognizeRow models score x).2.1 ∉ models.map Prod.fst) := by
  refine ⟨recognize_snd models score seqs, ?_⟩
  intro x hx
  have hscored : scoredRow models score x =
      models.map (fun wm => (wm.1, (⊥ : WithBot ℚ))) := by
    unfold scoredRow
    apply List.map_congr_left
    intro wm hm
    simp [recScore, hx wm hm]
  have hbot : ∀ p ∈ scoredRow models score x, p.2 = (⊥ : WithBot ℚ) := by
    rw [hscored]
    intro p hp
    obtain ⟨wm, _, rfl⟩ := List.mem_map.mp hp
    rfl
  have h2 : (recognizeRow models score x).2 = ("", (⊥ : WithBot ℚ)) := by
    rw [recognizeRow_snd]
    exact bestFold_of_all_bot "" _ hbot
  have hg : (recognizeRow models score x).2.1 = "" := by rw [h2]
  refine ⟨?_, hg, ?_⟩
  · rw [recognizeRow_fst, hscored]
  · intro hne
    rw [hg]
    exact hne

/-- Witness for recognize_all_fail_empty_guess: one model A, scoring always
fails, guess is the empty string. -/
theorem recognize_all_fail_empty_guess_witness :
    (∀ wm ∈ ([("A", 0)] : List (String × ℕ)),
      (fun _ _ => (none : Option ℚ)) wm.2 (0 : ℕ) = none) ∧
    (recognizeRow [("A", 0)] (fun _ _ => (none : Option ℚ)) 0).2.1 = "" :=
  ⟨by decide, ((recognize_all_fail_empty_guess [("A", 0)]
      (fun _ _ => (none : Option ℚ)) [0]).2 0 (by decide)).2.1⟩

/-- C10: for a dataset with exactly one vocabulary item, every SelectorDIC
candidate iteration divides by len(words) - 1 = 0, which raises and is
swallowed (there is no explicit single-item guard), so every candidate is
skipped and select returns the explicit absence None - it neither raises
nor returns a model with a degenerate score. -/
theorem dic_single_item_none (e : SelectorEnv) (h : e.words.length = 1) :
    SelectorDIC_select e = none := by
  have hall : ∀ n ∈ candidates e, dicEval e n = none := by
    intro n _
    unfold dicEval
    split
    · rfl
    · split
      · rfl
      · split
        · rfl
        · simp [h]
  unfold SelectorDIC_select
  rw [dicFold_of_all_none e (candidates e) none hall]
  rfl

/-- Witness for dic_single_item_none: envOneWord has the single word A, and
every fit and score succeeds there. -/
theorem dic_single_item_none_witness :
    envOneWord.words.length = 1 ∧ SelectorDIC_select envOneWord = none :=
  ⟨by decide, dic_single_item_none envOneWord (by decide)⟩
